import Mathlib

/-!
Verification of the x-keeper thread resolver (src/twitter_client.py),
fetch orchestrator (src/image_downloader.py) and dedup ledger
(src/log_store.py) against their natural-language specification.

The Python sources are shallowly embedded: the external gallery-dl
capabilities (`_get_tweet_info` and the subprocess invocations inside the
downloader) are parameters of the Lean functions, filesystem directories
are lists of file names, and the persisted ledger is a duplicate-free list
of id strings.  Python exceptions are modelled with `Except`/`Option`.
-/

/-- The two exception kinds the thread resolver can raise:
`ValueError` from `_extract_tweet_id` and `RuntimeError` from a
gallery-dl timeout inside `_get_tweet_info`. -/
inductive PyError where
  | valueError : PyError
  | runtimeError : PyError
deriving DecidableEq, Repr

/-- models.TweetThread. -/
structure TweetThread where
  conversation_id : String
  tweet_urls : List String
deriving DecidableEq, Repr

/-! ## URL scanning (`_TWEET_URL_PATTERN` and the `/status/(\d+)` fallback)

The two Python regexes are embedded as explicit scanners over the URL's
character list.  `\d` is modelled as an ASCII digit and `[A-Za-z0-9_]`
as ASCII alphanumerics plus underscore, matching the character classes the
URLs in question use. -/

/-- The `[A-Za-z0-9_]` character class of `_TWEET_URL_PATTERN`. -/
def isWordChar (c : Char) : Bool := c.isAlphanum || c = '_'

/-- Remove the pattern list `p` from the front of `cs`, or fail. -/
def stripLit : List Char → List Char → Option (List Char)
  | [], cs => some cs
  | _ :: _, [] => none
  | p :: ps, c :: cs => if p = c then stripLit ps cs else none

/-- The literal `/status/` that both regexes require. -/
def statusKey : List Char := "/status/".data

/-- Match `/status/(\d+)` at the head of `cs`, returning the captured
maximal digit run (the regex's greedy `\d+`). -/
def matchStatusAt (cs : List Char) : Option (List Char) :=
  match stripLit statusKey cs with
  | none => none
  | some r =>
    let ds := r.takeWhile Char.isDigit
    if ds = [] then none else some ds

/-- Search (`re.search`) of `/status/(\d+)`: leftmost position where the pattern
matches, returning the captured digits. -/
def searchStatus : List Char → Option (List Char)
  | [] => none
  | c :: cs =>
    match matchStatusAt (c :: cs) with
    | some ds => some ds
    | none => searchStatus cs

/-- Match `https?://` at the head of `cs`. -/
def matchSchemeAt (cs : List Char) : Option (List Char) :=
  match stripLit "http".data cs with
  | none => none
  | some r =>
    match stripLit "s://".data r with
    | some r2 => some r2
    | none => stripLit "://".data r

/-- Match `(?:twitter\.com|x\.com)/` at the head of `cs`. -/
def matchHostAt (cs : List Char) : Option (List Char) :=
  match stripLit "twitter.com/".data cs with
  | some r => some r
  | none => stripLit "x.com/".data cs

/-- Match the full `_TWEET_URL_PATTERN`
`https?://(?:twitter\.com|x\.com)/[A-Za-z0-9_]+/status/(\d+)` at the head
of `cs`, returning the captured digits. -/
def matchTwitterAt (cs : List Char) : Option (List Char) :=
  match matchSchemeAt cs with
  | none => none
  | some r1 =>
    match matchHostAt r1 with
    | none => none
    | some r2 =>
      let user := r2.takeWhile isWordChar
      let r3 := r2.dropWhile isWordChar
      if user = [] then none
      else
        match stripLit statusKey r3 with
        | none => none
        | some r4 =>
          let ds := r4.takeWhile Char.isDigit
          if ds = [] then none else some ds

/-- Search (`re.search`) of `_TWEET_URL_PATTERN`. -/
def searchTwitter : List Char → Option (List Char)
  | [] => none
  | c :: cs =>
    match matchTwitterAt (c :: cs) with
    | some ds => some ds
    | none => searchTwitter cs

/-- twitter_client._extract_tweet_id: try `_TWEET_URL_PATTERN.search` first,
then the `/status/(\d+)` fallback; `none` models the raised `ValueError`. -/
def _extract_tweet_id (url : String) : Option String :=
  match searchTwitter url.data with
  | some ds => some (String.mk ds)
  | none =>
    match searchStatus url.data with
    | some ds => some (String.mk ds)
    | none => none

/-! ## Thread walk (`TwitterClient._collect_thread_urls` / `get_thread`) -/

/-- Constant `_MAX_THREAD_DEPTH` from twitter_client.py. -/
def _MAX_THREAD_DEPTH : Nat := 50

/-- The metadata-fetch capability `_get_tweet_info`: given a tweet URL it
either raises (a gallery-dl timeout, modelled as `Except.error ()`) or
returns `(reply_id, author_name)`, each optional. -/
def GetTweetInfo : Type := String → Except Unit (Option String × Option String)

/-- The `if author_filter is None / elif author_name and … / else` block of
`_collect_thread_urls`: returns the author filter to carry on with and the
new output list.  Python truthiness makes an empty-string `author_name`
fall into the `else` (append) branch. -/
def authorStep (author_filter : Option String) (author_name : Option String)
    (tweet_urls : List String) (url : String) : Option String × List String :=
  match author_filter with
  | none => (author_name, tweet_urls)
  | some f =>
    match author_name with
    | some a =>
      if a ≠ "" ∧ a ≠ f then (some f, tweet_urls)
      else (some f, tweet_urls ++ [url])
    | none => (some f, tweet_urls ++ [url])

/-- Recursion kernel for `_collect_thread_urls`.  The Python function
recurses with `depth + 1` under the guard `depth < _MAX_THREAD_DEPTH`; to
make the recursion structural it is driven by the remaining budget
`fuel = _MAX_THREAD_DEPTH - depth`.  Under that coherence (enforced by the
wrapper below) `fuel = 0` implies `depth ≥ _MAX_THREAD_DEPTH`, so the
`fuel = 0` equation coincides with the depth guard. -/
def collectGo (info : GetTweetInfo) :
    Nat → String → List String → List String → Nat → Option String →
    Except PyError (List String × List String)
  | 0, _, visited, tweet_urls, _, _ => .ok (visited, tweet_urls)
  | fuel + 1, url, visited, tweet_urls, depth, author_filter =>
    if depth ≥ _MAX_THREAD_DEPTH then .ok (visited, tweet_urls)
    else
      match _extract_tweet_id url with
      | none => .error .valueError
      | some tweet_id =>
        if tweet_id ∈ visited then .ok (visited, tweet_urls)
        else
          match info url with
          | .error _ => .error .runtimeError
          | .ok (reply_id, author_name) =>
            let step := authorStep author_filter author_name tweet_urls url
            match reply_id with
            | none => .ok (tweet_id :: visited, step.2)
            | some rid =>
              collectGo info fuel ("https://x.com/i/status/" ++ rid)
                (tweet_id :: visited) step.2 (depth + 1) step.1

/-- Function `TwitterClient._collect_thread_urls`, with the recursion budget fixed
coherently to the current depth. -/
def _collect_thread_urls (info : GetTweetInfo) (url : String)
    (visited tweet_urls : List String) (depth : Nat)
    (author_filter : Option String) :
    Except PyError (List String × List String) :=
  collectGo info (_MAX_THREAD_DEPTH - depth) url visited tweet_urls depth
    author_filter

/-- Method `TwitterClient.get_thread`. -/
def get_thread (info : GetTweetInfo) (tweet_url : String) :
    Except PyError TweetThread :=
  match _extract_tweet_id tweet_url with
  | none => .error .valueError
  | some conversation_id =>
    match _collect_thread_urls info tweet_url [] [] 0 none with
    | .error e => .error e
    | .ok (_, tweet_urls) => .ok ⟨conversation_id, tweet_urls⟩

/-! ## Dedup ledger (`LogStore`) -/

/-- The `existing.update(new_ids)` set insertion of `mark_downloaded`:
fold the new ids into the duplicate-free membership list. -/
def addNewIds (store new_ids : List String) : List String :=
  new_ids.foldl (fun s t => if t ∈ s then s else s ++ [t]) store

/-- Method `LogStore.mark_downloaded`: the ledger is modelled by its semantic
content, a duplicate-free list of id strings (the JSON file holds the
sorted set; only membership is observable).  Returns the new ledger and
`len(new_ids)`, where `new_ids` keeps the order and multiplicity of the
input list filtered against the current ledger. -/
def mark_downloaded (store : List String) (tweet_ids : List String) :
    List String × Nat :=
  if tweet_ids = [] then (store, 0)
  else
    let new_ids := tweet_ids.filter (fun t => decide (t ∉ store))
    (addNewIds store new_ids, new_ids.length)

/-! ## Fetch orchestrator (`MediaDownloader`) -/

/-- Constant `_MAX_RETRIES` from image_downloader.py. -/
def _MAX_RETRIES : Nat := 3

/-- models.SavedFile (the date bucket is the `today.isoformat()` folder,
passed through as a string). -/
structure SavedFile where
  source_url : String
  saved_path : String
  date_folder : String
deriving DecidableEq, Repr

/-- models.DownloadResult as constructed by `MediaDownloader.download_all`
(`saved`, `skipped_count`, `existed_count`; the dataclass declaration is
absent from the sources, its shape is fixed by the construction site and
by the spec's `fetchAll` contract). -/
structure DownloadResult where
  saved : List SavedFile
  skipped_count : Nat
  existed_count : Nat
deriving DecidableEq, Repr

/-- The gallery-dl fetch capability as seen by `_download_one`: for a URL
and an attempt number (1-based) it either times out (`none`, which Python
turns into a raised `RuntimeError`) or terminates with an exit code and
the set of files it added to the destination directory. -/
def Gdl : Type := String → Nat → Option (Int × List String)

/-- The retry loop `for attempt in range(1, _MAX_RETRIES + 1)` of
`_download_one`, structural on the remaining attempts
(`remaining = _MAX_RETRIES - attempt`).  The destination directory is the
list of its file names; each run unions in the files that attempt created.
Returns the final directory, `last_returncode`, and the number of
attempts actually made (the fetch-capability invocation count). -/
def runGo (gdl : Gdl) (url : String) :
    Nat → List String → Nat → Option (List String × Int × Nat)
  | remaining, dir, attempt =>
    match gdl url attempt with
    | none => none
    | some (rc, added) =>
      let dir2 := dir ++ added.filter (fun f => decide (f ∉ dir))
      if rc == 0 || rc == 1 then some (dir2, rc, 1)
      else
        match remaining with
        | 0 => some (dir2, rc, 1)
        | r + 1 =>
          match runGo gdl url r dir2 (attempt + 1) with
          | none => none
          | some (dir3, rc2, used) => some (dir3, rc2, used + 1)

/-- The attempt loop entered at `attempt = 1` with
`_MAX_RETRIES - 1` retries left. -/
def runAttempts (gdl : Gdl) (url : String) (dir : List String) :
    Option (List String × Int × Nat) :=
  runGo gdl url (_MAX_RETRIES - 1) dir 1

/-- Method `MediaDownloader._download_one`: directory diff around the retry loop.
Returns `(files_after, new_files, rc_ok, attempts)`; `none` models the
`RuntimeError` raised on a gallery-dl timeout.  `rc_ok` is
`last_returncode in (0, 1)`. -/
def _download_one (gdl : Gdl) (url : String) (dir : List String) :
    Option (List String × List String × Bool × Nat) :=
  match runAttempts gdl url dir with
  | none => none
  | some (dir2, rc, used) =>
    (dir2, dir2.filter (fun f => decide (f ∉ dir)), rc == 0 || rc == 1, used)

/-- Helper `_tweet_id_from_url`: the `_TWEET_ID_FROM_URL = /status/(\d+)` search,
`none` when no id can be found (no exception here). -/
def _tweet_id_from_url (url : String) : Option String :=
  match searchStatus url.data with
  | some ds => some (String.mk ds)
  | none => none

/-- The mutable state threaded through `download_all`'s fetch loop:
destination directory contents, ledger, collected `SavedFile`s,
`existed_count`, and the running count of fetch-capability invocations
(instrumentation used to state the pruning claims). -/
structure BatchState where
  dir : List String
  store : List String
  saved : List SavedFile
  existed : Nat
  calls : Nat
deriving DecidableEq, Repr

/-- One iteration of the `for url in pending` loop of `download_all`:
fetch, collect `SavedFile`s for the diffed new files, then the ledger
update rule (`new_files` → mark; zero new files but `rc_ok` → mark and
count as existed; otherwise leave the ledger alone).  The log store is
present (`log_store is not None`), and a non-`None` extracted id is never
the empty string, so Python's `if tid` truthiness test is `isSome`. -/
def processOne (gdl : Gdl) (today : String) (st : BatchState) (url : String) :
    Option BatchState :=
  match _download_one gdl url st.dir with
  | none => none
  | some (dir2, new_files, rc_ok, used) =>
    let saved2 := st.saved ++
      new_files.map (fun f => SavedFile.mk url f today)
    match _tweet_id_from_url url with
    | some tid =>
      if new_files ≠ [] then
        some ⟨dir2, (mark_downloaded st.store [tid]).1, saved2, st.existed,
          st.calls + used⟩
      else if rc_ok then
        some ⟨dir2, (mark_downloaded st.store [tid]).1, saved2,
          st.existed + 1, st.calls + used⟩
      else
        some ⟨dir2, st.store, saved2, st.existed, st.calls + used⟩
    | none => some ⟨dir2, st.store, saved2, st.existed, st.calls + used⟩

/-- The fetch loop over the pruned URL list; a `none` (timeout
`RuntimeError`) aborts the whole call, as in Python. -/
def processList (gdl : Gdl) (today : String) :
    BatchState → List String → Option BatchState
  | st, [] => some st
  | st, url :: rest =>
    match processOne gdl today st url with
    | none => none
    | some st2 => processList gdl today st2 rest

/-- The pruning pass of `download_all`: keep a URL unless its extracted id
is already in the ledger (`if tid and tid in downloaded_ids: skip`). -/
def pendingOf (store : List String) (tweet_urls : List String) : List String :=
  tweet_urls.filter (fun u =>
    match _tweet_id_from_url u with
    | some t => decide (t ∉ store)
    | none => true)

/-- Method `MediaDownloader.download_all` with a present `LogStore`.  `store` and
`dir` are the ledger contents and destination-directory contents when the
call starts; returns the `DownloadResult` together with the final batch
state (ledger, directory, invocation count), or `none` when a gallery-dl
timeout raised out of the call. -/
def download_all (gdl : Gdl) (today : String) (store dir : List String)
    (tweet_urls : List String) : Option (DownloadResult × BatchState) :=
  let pending := pendingOf store tweet_urls
  let skipped := tweet_urls.length - pending.length
  match processList gdl today ⟨dir, store, [], 0, 0⟩ pending with
  | none => none
  | some st => some (⟨st.saved, skipped, st.existed⟩, st)

/-! ## Statement-level predicates and concrete scenario stubs -/

/-- A URL character list contains `/status/` immediately followed by a
digit — the success criterion of the fallback extraction regex. -/
def HasStatusId (cs : List Char) : Prop :=
  ∃ pre d rest, cs = pre ++ statusKey ++ d :: rest ∧ d.isDigit = true

/-- The metadata capability is well formed when every parent id it reports
is a nonempty digit string (gallery-dl's `reply_id` is `str(int)` of a
tweet id). -/
def WellFormedInfo (info : GetTweetInfo) : Prop :=
  ∀ u rid a, info u = .ok (some rid, a) →
    rid ≠ "" ∧ ∀ c ∈ rid.data, c.isDigit = true

/-- C1 scenario metadata: post 100 (author userA) has parent 99; post 99
(author userA) has no parent. -/
def infoC1 : GetTweetInfo := fun u =>
  if u = "https://service/userA/status/100" then .ok (some "99", some "userA")
  else if u = "https://x.com/i/status/99" then .ok (none, some "userA")
  else .ok (none, none)

/-- C2 counterexample metadata: every post has an empty-string author and
no parent. -/
def infoC2cx : GetTweetInfo := fun _ => .ok (none, some "")

/-- C3 counterexample metadata: the starting post resolves (parent 99,
author userA), but the metadata fetch for the parent times out. -/
def infoC3cx : GetTweetInfo := fun u =>
  if u = "https://x.com/userA/status/100" then .ok (some "99", some "userA")
  else .error ()

/-- C4 counterexample fetch stub: succeeds with one file for the two ok
URLs, and fails every attempt with exit code 2 (after the full retry
budget) for anything else — in particular for the middle "bad" URL. -/
def gdlC4 : Gdl := fun u _ =>
  if u = "https://s/status/11" then some ((0 : Int), ["f1"])
  else if u = "https://s/status/33" then some ((0 : Int), ["f2"])
  else some ((2 : Int), [])



theorem stripLit_some : ∀ (p cs r : List Char), stripLit p cs = some r → cs = p ++ r := by
  intro p
  induction p with
  | nil => intro cs r h; simp [stripLit] at h; simp [h]
  | cons x xs ih =>
    intro cs r h
    cases cs with
    | nil => simp [stripLit] at h
    | cons c cs' =>
      simp only [stripLit] at h
      split at h
      · rename_i hx
        have := ih cs' r h
        simp [hx, this]
      · exact absurd h (by simp)

theorem stripLit_append : ∀ (p r : List Char), stripLit p (p ++ r) = some r := by
  intro p
  induction p with
  | nil => intro r; simp [stripLit]
  | cons x xs ih => intro r; simp [stripLit, ih]

theorem matchStatusAt_isSome_iff (cs : List Char) :
    (matchStatusAt cs).isSome ↔ ∃ d rest, cs = statusKey ++ d :: rest ∧ d.isDigit = true := by
  constructor
  · intro h
    unfold matchStatusAt at h
    cases hs : stripLit statusKey cs with
    | none => simp [hs] at h
    | some r =>
      simp only [hs] at h
      have hcs := stripLit_some _ _ _ hs
      cases r with
      | nil => simp [List.takeWhile] at h
      | cons d rest =>
        by_cases hd : d.isDigit
        · exact ⟨d, rest, hcs, hd⟩
        · simp [List.takeWhile, hd] at h
  · rintro ⟨d, rest, rfl, hd⟩
    unfold matchStatusAt
    rw [stripLit_append]
    simp [List.takeWhile, hd]

theorem searchStatus_isSome_iff (cs : List Char) :
    (searchStatus cs).isSome ↔ HasStatusId cs := by
  induction cs with
  | nil =>
    simp only [searchStatus, Option.isSome_none, HasStatusId]
    constructor
    · intro h; cases h
    · rintro ⟨pre, d, rest, h, _⟩
      have := congrArg List.length h
      simp [statusKey] at this
      omega
  | cons c cs' ih =>
    simp only [searchStatus]
    constructor
    · intro h
      cases hm : matchStatusAt (c :: cs') with
      | some ds =>
        have : (matchStatusAt (c :: cs')).isSome := by simp [hm]
        obtain ⟨d, rest, he, hd⟩ := (matchStatusAt_isSome_iff _).mp this
        exact ⟨[], d, rest, by simpa using he, hd⟩
      | none =>
        simp only [hm] at h
        obtain ⟨pre, d, rest, he, hd⟩ := ih.mp h
        exact ⟨c :: pre, d, rest, by simp [he], hd⟩
    · rintro ⟨pre, d, rest, he, hd⟩
      cases pre with
      | nil =>
        have : (matchStatusAt (c :: cs')).isSome :=
          (matchStatusAt_isSome_iff _).mpr ⟨d, rest, by simpa using he, hd⟩
        cases hm : matchStatusAt (c :: cs') with
        | none => simp [hm] at this
        | some ds => simp [hm]
      | cons p pre' =>
        simp only [List.cons_append] at he
        have he2 : cs' = pre' ++ statusKey ++ d :: rest := by
          injection he with h1 h2
        cases hm : matchStatusAt (c :: cs') with
        | some ds => simp
        | none => simpa [hm] using ih.mpr ⟨pre', d, rest, he2, hd⟩

theorem matchSchemeAt_some (cs r : List Char) (h : matchSchemeAt cs = some r) :
    ∃ p, cs = p ++ r := by
  unfold matchSchemeAt at h
  cases h1 : stripLit "http".data cs with
  | none => simp [h1] at h
  | some r1 =>
    simp only [h1] at h
    have hcs := stripLit_some _ _ _ h1
    cases h2 : stripLit "s://".data r1 with
    | some r2 =>
      simp only [h2] at h
      injection h with h
      subst h
      have hr1 := stripLit_some _ _ _ h2
      exact ⟨"http".data ++ "s://".data, by simp [hcs, hr1]⟩
    | none =>
      simp only [h2] at h
      have hr1 := stripLit_some _ _ _ h
      exact ⟨"http".data ++ "://".data, by simp [hcs, hr1]⟩

theorem matchHostAt_some (cs r : List Char) (h : matchHostAt cs = some r) :
    ∃ p, cs = p ++ r := by
  unfold matchHostAt at h
  cases h1 : stripLit "twitter.com/".data cs with
  | some r1 =>
    simp only [h1] at h
    injection h with h
    subst h
    exact ⟨"twitter.com/".data, stripLit_some _ _ _ h1⟩
  | none =>
    simp only [h1] at h
    exact ⟨"x.com/".data, stripLit_some _ _ _ h⟩

theorem matchTwitterAt_hasStatus (cs : List Char) (ds : List Char)
    (h : matchTwitterAt cs = some ds) : HasStatusId cs := by
  unfold matchTwitterAt at h
  cases h1 : matchSchemeAt cs with
  | none => simp [h1] at h
  | some r1 =>
    simp only [h1] at h
    cases h2 : matchHostAt r1 with
    | none => simp [h2] at h
    | some r2 =>
      simp only [h2] at h
      split at h
      · exact absurd h (by simp)
      · cases h3 : stripLit statusKey (r2.dropWhile isWordChar) with
        | none => simp [h3] at h
        | some r4 =>
          simp only [h3] at h
          obtain ⟨p1, hp1⟩ := matchSchemeAt_some _ _ h1
          obtain ⟨p2, hp2⟩ := matchHostAt_some _ _ h2
          have hr3 := stripLit_some _ _ _ h3
          cases hr4 : r4 with
          | nil => subst hr4; simp [List.takeWhile] at h
          | cons d rest =>
            subst hr4
            by_cases hd : d.isDigit
            · refine ⟨p1 ++ p2 ++ r2.takeWhile isWordChar, d, rest, ?_, hd⟩
              rw [hp1, hp2]
              conv_lhs => rw [← List.takeWhile_append_dropWhile isWordChar r2, hr3]
              simp
            · simp [List.takeWhile, hd] at h

theorem searchTwitter_hasStatus (cs ds : List Char)
    (h : searchTwitter cs = some ds) : HasStatusId cs := by
  induction cs with
  | nil => simp [searchTwitter] at h
  | cons c cs' ih =>
    simp only [searchTwitter] at h
    cases hm : matchTwitterAt (c :: cs') with
    | some ds2 => exact matchTwitterAt_hasStatus _ _ hm
    | none =>
      simp only [hm] at h
      obtain ⟨pre, d, rest, he, hd⟩ := ih h
      exact ⟨c :: pre, d, rest, by simp [he], hd⟩

/-- The extraction criterion: `_extract_tweet_id` fails exactly on URLs
with no `/status/<digit>` occurrence. -/
theorem extract_eq_none_iff (url : String) :
    _extract_tweet_id url = none ↔ ¬ HasStatusId url.data := by
  constructor
  · intro h hh
    unfold _extract_tweet_id at h
    cases h1 : searchTwitter url.data with
    | some ds => simp [h1] at h
    | none =>
      cases h2 : searchStatus url.data with
      | some ds => simp [h1, h2] at h
      | none =>
        have := (searchStatus_isSome_iff url.data).mpr hh
        simp [h2] at this
  · intro hh
    unfold _extract_tweet_id
    cases h1 : searchTwitter url.data with
    | some ds => exact absurd (searchTwitter_hasStatus _ _ h1) hh
    | none =>
      cases h2 : searchStatus url.data with
      | some ds =>
        have : (searchStatus url.data).isSome := by simp [h2]
        exact absurd ((searchStatus_isSome_iff _).mp this) hh
      | none => simp


theorem string_data_append (s t : String) : (s ++ t).data = s.data ++ t.data := by
  cases s; cases t; rfl

theorem extract_parent_isSome (rid : String) (h0 : rid ≠ "")
    (hd : ∀ c ∈ rid.data, c.isDigit = true) :
    (_extract_tweet_id ("https://x.com/i/status/" ++ rid)).isSome := by
  have hdata : ("https://x.com/i/status/" ++ rid).data =
      "https://x.com/i".data ++ statusKey ++ rid.data := by
    rw [string_data_append]
    rfl
  obtain ⟨d, rest, hrid⟩ : ∃ d rest, rid.data = d :: rest := by
    cases hr : rid.data with
    | nil =>
      refine absurd ?_ h0
      cases rid
      exact congrArg String.mk hr
    | cons d rest => exact ⟨d, rest, rfl⟩
  have hh : HasStatusId ("https://x.com/i/status/" ++ rid).data :=
    ⟨"https://x.com/i".data, d, rest, by rw [hdata, hrid], hd d (by simp [hrid])⟩
  cases hx : _extract_tweet_id ("https://x.com/i/status/" ++ rid) with
  | some t => simp
  | none => exact absurd hh ((extract_eq_none_iff _).mp hx)

/-- One faithful unfolding of `_collect_thread_urls` below the depth
bound: exactly the Python function body, with the author-filter block as
`authorStep`. -/
theorem collect_step (info : GetTweetInfo) (url : String) (v u : List String)
    (d : Nat) (f : Option String) (hd : d < _MAX_THREAD_DEPTH) :
    _collect_thread_urls info url v u d f =
      match _extract_tweet_id url with
      | none => .error .valueError
      | some tid =>
        if tid ∈ v then .ok (v, u)
        else
          match info url with
          | .error _ => .error .runtimeError
          | .ok (reply, author) =>
            match reply with
            | none => .ok (tid :: v, (authorStep f author u url).2)
            | some rid =>
              _collect_thread_urls info ("https://x.com/i/status/" ++ rid)
                (tid :: v) (authorStep f author u url).2 (d + 1)
                (authorStep f author u url).1 := by
  unfold _collect_thread_urls
  have hf : _MAX_THREAD_DEPTH - d = (_MAX_THREAD_DEPTH - (d + 1)) + 1 := by
    simp only [_MAX_THREAD_DEPTH] at hd ⊢
    omega
  rw [hf, collectGo, if_neg (Nat.not_le.mpr hd)]

theorem authorStep_len (f author : Option String) (u : List String)
    (url : String) : (authorStep f author u url).2.length ≤ u.length + 1 := by
  rcases f with _ | g
  · simp [authorStep]
  · rcases author with _ | a
    · simp [authorStep]
    · simp only [authorStep]
      split
      · simp
      · simp

/-- The walk never raises `ValueError` once started from an extractable
URL, provided the metadata capability reports digit-string parent ids. -/
theorem collectGo_ne_valueError (info : GetTweetInfo)
    (hwf : WellFormedInfo info) :
    ∀ fuel url v u d f, (_extract_tweet_id url).isSome →
      collectGo info fuel url v u d f ≠ .error .valueError := by
  intro fuel
  induction fuel with
  | zero => intro url v u d f _ h; simp [collectGo] at h
  | succ n ih =>
    intro url v u d f hx h
    rw [collectGo] at h
    by_cases hd : d ≥ _MAX_THREAD_DEPTH
    · rw [if_pos hd] at h; simp at h
    · rw [if_neg hd] at h
      obtain ⟨tid, htid⟩ := Option.isSome_iff_exists.mp hx
      simp only [htid] at h
      by_cases hv : tid ∈ v
      · rw [if_pos hv] at h; simp at h
      · rw [if_neg hv] at h
        cases hi : info url with
        | error e => simp only [hi] at h; simp at h
        | ok pr =>
          obtain ⟨reply, author⟩ := pr
          simp only [hi] at h
          cases reply with
          | none => simp at h
          | some rid =>
            obtain ⟨h0, hdig⟩ := hwf url rid author hi
            have h2 : collectGo info n ("https://x.com/i/status/" ++ rid)
                (tid :: v) (authorStep f author u url).2 (d + 1)
                (authorStep f author u url).1 =
                Except.error PyError.valueError := by simpa using h
            exact ih _ _ _ _ _ (extract_parent_isSome rid h0 hdig) h2

/-- Bounds of a coherent walk: at most `fuel` new output URLs and `fuel`
newly visited ids; visited ids are never dropped, and the visited set
stays duplicate-free (each id processed at most once). -/
theorem collectGo_bounds (info : GetTweetInfo) :
    ∀ fuel url v u d f v2 u2, fuel = _MAX_THREAD_DEPTH - d →
      collectGo info fuel url v u d f = .ok (v2, u2) →
      u2.length ≤ u.length + fuel ∧ v2.length ≤ v.length + fuel ∧
        (∀ t ∈ v, t ∈ v2) ∧ (v.Nodup → v2.Nodup) := by
  intro fuel
  induction fuel with
  | zero =>
    intro url v u d f v2 u2 _ h
    simp only [collectGo, Except.ok.injEq, Prod.mk.injEq] at h
    obtain ⟨rfl, rfl⟩ := h
    simp
  | succ n ih =>
    intro url v u d f v2 u2 hcoh h
    rw [collectGo] at h
    by_cases hd : d ≥ _MAX_THREAD_DEPTH
    · rw [if_pos hd] at h
      simp only [Except.ok.injEq, Prod.mk.injEq] at h
      obtain ⟨rfl, rfl⟩ := h
      constructor
      · omega
      constructor
      · omega
      · simp
    · rw [if_neg hd] at h
      cases hx : _extract_tweet_id url with
      | none => simp only [hx] at h; simp at h
      | some tid =>
        simp only [hx] at h
        by_cases hv : tid ∈ v
        · rw [if_pos hv] at h
          simp only [Except.ok.injEq, Prod.mk.injEq] at h
          obtain ⟨rfl, rfl⟩ := h
          refine ⟨by omega, by omega, fun t ht => ht, fun hnd => hnd⟩
        · rw [if_neg hv] at h
          cases hi : info url with
          | error e => simp only [hi] at h; simp at h
          | ok pr =>
            obtain ⟨reply, author⟩ := pr
            simp only [hi] at h
            have hstep := authorStep_len f author u url
            cases reply with
            | none =>
              simp only [Except.ok.injEq, Prod.mk.injEq] at h
              obtain ⟨rfl, rfl⟩ := h
              refine ⟨by omega, by simp, fun t ht => by simp [ht], ?_⟩
              intro hnd
              exact List.nodup_cons.mpr ⟨hv, hnd⟩
            | some rid =>
              have hcoh2 : n = _MAX_THREAD_DEPTH - (d + 1) := by
                simp only [_MAX_THREAD_DEPTH] at hcoh ⊢
                omega
              have h2 : collectGo info n ("https://x.com/i/status/" ++ rid)
                  (tid :: v) (authorStep f author u url).2 (d + 1)
                  (authorStep f author u url).1 = .ok (v2, u2) := by
                simpa using h
              obtain ⟨hu, hvlen, hsub, hnd⟩ :=
                ih _ (tid :: v) (authorStep f author u url).2 (d + 1)
                  (authorStep f author u url).1 v2 u2 hcoh2 h2
              refine ⟨by omega, ?_, ?_, ?_⟩
              · simp at hvlen
                omega
              · intro t ht
                exact hsub t (by simp [ht])
              · intro hnodup
                exact hnd (List.nodup_cons.mpr ⟨hv, hnodup⟩)

theorem mem_addNewIds (s ids : List String) (t : String) :
    t ∈ addNewIds s ids ↔ t ∈ s ∨ t ∈ ids := by
  induction ids generalizing s with
  | nil => simp [addNewIds]
  | cons x xs ih =>
    unfold addNewIds at ih ⊢
    simp only [List.foldl_cons]
    rw [ih]
    by_cases hx : x ∈ s
    · simp only [if_pos hx]
      constructor
      · rintro (h | h)
        · exact Or.inl h
        · exact Or.inr (by simp [h])
      · rintro (h | h)
        · exact Or.inl h
        · rcases List.mem_cons.mp h with rfl | h2
          · exact Or.inl hx
          · exact Or.inr h2
    · simp only [if_neg hx]
      constructor
      · rintro (h | h)
        · rcases List.mem_append.mp h with h2 | h2
          · exact Or.inl h2
          · exact Or.inr (by simp at h2; simp [h2])
        · exact Or.inr (by simp [h])
      · rintro (h | h)
        · exact Or.inl (List.mem_append.mpr (Or.inl h))
        · rcases List.mem_cons.mp h with rfl | h2
          · exact Or.inl (List.mem_append.mpr (Or.inr (by simp)))
          · exact Or.inr h2

theorem mark_mem (s ids : List String) (t : String) :
    t ∈ (mark_downloaded s ids).1 ↔ t ∈ s ∨ t ∈ ids := by
  unfold mark_downloaded
  by_cases h : ids = []
  · subst h; simp
  · rw [if_neg h]
    simp only []
    rw [mem_addNewIds]
    constructor
    · rintro (hs | hf)
      · exact Or.inl hs
      · exact Or.inr (List.mem_of_mem_filter hf)
    · rintro (hs | hi)
      · exact Or.inl hs
      · by_cases hts : t ∈ s
        · exact Or.inl hts
        · exact Or.inr (List.mem_filter.mpr ⟨hi, by simp [hts]⟩)

theorem mark_count (s ids : List String) :
    (mark_downloaded s ids).2 = (ids.filter (fun t => decide (t ∉ s))).length := by
  unfold mark_downloaded
  by_cases h : ids = []
  · subst h; simp
  · rw [if_neg h]

theorem mark_noop (s ids : List String) (h : ∀ t ∈ ids, t ∈ s) :
    mark_downloaded s ids = (s, 0) := by
  unfold mark_downloaded
  by_cases he : ids = []
  · subst he; simp
  · rw [if_neg he]
    have hf : ids.filter (fun t => decide (t ∉ s)) = [] := by
      rw [List.filter_eq_nil_iff]
      intro a ha
      simp [h a ha]
    show (addNewIds s (ids.filter fun t => decide (t ∉ s)),
      (ids.filter fun t => decide (t ∉ s)).length) = (s, 0)
    rw [hf]
    simp [addNewIds]

theorem runGo_isSome (gdl : Gdl) (url : String)
    (hnt : ∀ n, gdl url n ≠ none) :
    ∀ remaining dir attempt, (runGo gdl url remaining dir attempt).isSome := by
  intro remaining
  induction remaining with
  | zero =>
    intro dir attempt
    rw [runGo]
    cases hg : gdl url attempt with
    | none => exact absurd hg (hnt attempt)
    | some pr =>
      obtain ⟨rc, added⟩ := pr
      simp only []
      split
      · simp
      · simp
  | succ r ih =>
    intro dir attempt
    rw [runGo]
    cases hg : gdl url attempt with
    | none => exact absurd hg (hnt attempt)
    | some pr =>
      obtain ⟨rc, added⟩ := pr
      simp only []
      split
      · simp
      · have := ih (dir ++ added.filter (fun f => decide (f ∉ dir))) (attempt + 1)
        cases hr : runGo gdl url r
            (dir ++ added.filter (fun f => decide (f ∉ dir))) (attempt + 1) with
        | none => rw [hr] at this; simp at this
        | some pr2 =>
          obtain ⟨dir3, rc2, used⟩ := pr2
          simp [hr]

theorem runGo_used_pos (gdl : Gdl) (url : String) :
    ∀ remaining dir attempt dir2 rc used,
      runGo gdl url remaining dir attempt = some (dir2, rc, used) → 1 ≤ used := by
  intro remaining
  induction remaining with
  | zero =>
    intro dir attempt dir2 rc used h
    rw [runGo] at h
    cases hg : gdl url attempt with
    | none => rw [hg] at h; cases h
    | some pr =>
      obtain ⟨rc1, added⟩ := pr
      simp only [hg] at h
      split at h
      · simp only [Option.some.injEq, Prod.mk.injEq] at h
        omega
      · simp only [Option.some.injEq, Prod.mk.injEq] at h
        omega
  | succ r ih =>
    intro dir attempt dir2 rc used h
    rw [runGo] at h
    cases hg : gdl url attempt with
    | none => rw [hg] at h; cases h
    | some pr =>
      obtain ⟨rc1, added⟩ := pr
      simp only [hg] at h
      split at h
      · simp only [Option.some.injEq, Prod.mk.injEq] at h
        omega
      · cases hr : runGo gdl url r
            (dir ++ added.filter (fun f => decide (f ∉ dir))) (attempt + 1) with
        | none => rw [hr] at h; cases h
        | some pr2 =>
          obtain ⟨dir3, rc2, used2⟩ := pr2
          rw [hr] at h
          simp only [Option.some.injEq, Prod.mk.injEq] at h
          omega

theorem processOne_isSome (gdl : Gdl) (today : String) (st : BatchState)
    (url : String) (hnt : ∀ n, gdl url n ≠ none) :
    (processOne gdl today st url).isSome := by
  unfold processOne _download_one runAttempts
  have := runGo_isSome gdl url hnt (_MAX_RETRIES - 1) st.dir 1
  cases hr : runGo gdl url (_MAX_RETRIES - 1) st.dir 1 with
  | none => rw [hr] at this; simp at this
  | some pr =>
    obtain ⟨dir2, rc, used⟩ := pr
    simp only [hr]
    cases _tweet_id_from_url url with
    | none => simp
    | some tid =>
      simp only []
      split
      · simp
      · split
        · simp
        · simp

theorem processList_isSome (gdl : Gdl) (today : String)
    (hnt : ∀ u n, gdl u n ≠ none) :
    ∀ urls st, (processList gdl today st urls).isSome := by
  intro urls
  induction urls with
  | nil => intro st; simp [processList]
  | cons url rest ih =>
    intro st
    rw [processList]
    have := processOne_isSome gdl today st url (hnt url)
    cases hp : processOne gdl today st url with
    | none => rw [hp] at this; simp at this
    | some st2 => simpa [hp] using ih st2




/-- C1: for the spec scenario (post 100 by userA with parent 99, post 99 by
userA with no parent) the code returns conversation id "100" but
`tweet_urls = ["https://x.com/i/status/99"]`: the starting post's URL is
never appended, because the depth-0 branch of the author-filter block only
records the filter.  The claim (and the function's own contract of
returning all thread URLs, starting post first) expects the starting URL
as element 0. -/
theorem c1_start_url_omitted :
    get_thread infoC1 "https://service/userA/status/100" =
      .ok ⟨"100", ["https://x.com/i/status/99"]⟩ := rfl

/-- C2 counterexample: at depth 1 with recorded filter "userA", a post
whose author name is the empty string — which differs from the filter — is
still appended to the output, because Python's `author_name and …`
truthiness test sends falsy author names to the append branch.  The claim
says any author differing from the filter is not appended. -/
theorem c2_counterexample :
    (("" : String) ≠ "userA") ∧
    _collect_thread_urls infoC2cx "https://x.com/i/status/77" [] [] 1
      (some "userA") = .ok (["77"], ["https://x.com/i/status/77"]) :=
  ⟨by decide, rfl⟩

/-- C2 (amended): in the walk with a recorded author filter `f`, a post
whose author is non-empty and differs from `f` is not appended but the
walk still recurses to the parent when one is reported; a post whose
author matches `f`, is empty, or is undetermined (`None`) is appended and
the walk continues the same way. -/
theorem c2_amended (info : GetTweetInfo) (url : String) (v u : List String)
    (d : Nat) (f tid : String) (hd : d < _MAX_THREAD_DEPTH)
    (hx : _extract_tweet_id url = some tid) (hv : tid ∉ v) :
    (∀ reply a, info url = .ok (reply, some a) → a ≠ "" → a ≠ f →
      _collect_thread_urls info url v u d (some f) =
        match reply with
        | none => .ok (tid :: v, u)
        | some rid =>
          _collect_thread_urls info ("https://x.com/i/status/" ++ rid)
            (tid :: v) u (d + 1) (some f)) ∧
    (∀ reply a, info url = .ok (reply, some a) → a = f ∨ a = "" →
      _collect_thread_urls info url v u d (some f) =
        match reply with
        | none => .ok (tid :: v, u ++ [url])
        | some rid =>
          _collect_thread_urls info ("https://x.com/i/status/" ++ rid)
            (tid :: v) (u ++ [url]) (d + 1) (some f)) ∧
    (∀ reply, info url = .ok (reply, none) →
      _collect_thread_urls info url v u d (some f) =
        match reply with
        | none => .ok (tid :: v, u ++ [url])
        | some rid =>
          _collect_thread_urls info ("https://x.com/i/status/" ++ rid)
            (tid :: v) (u ++ [url]) (d + 1) (some f)) := by
  refine ⟨?_, ?_, ?_⟩
  · intro reply a hi ha1 ha2
    rw [collect_step info url v u d (some f) hd]
    simp only [hx, hi]
    have hstep : authorStep (some f) (some a) u url = (some f, u) := by
      simp [authorStep, ha1, ha2]
    rw [hstep, if_neg hv]
  · intro reply a hi ha
    rw [collect_step info url v u d (some f) hd]
    simp only [hx, hi]
    have hstep : authorStep (some f) (some a) u url = (some f, u ++ [url]) := by
      rcases ha with rfl | rfl
      · simp [authorStep]
      · simp [authorStep]
    rw [hstep, if_neg hv]
  · intro reply hi
    rw [collect_step info url v u d (some f) hd]
    simp only [hx, hi]
    have hstep : authorStep (some f) none u url = (some f, u ++ [url]) := by
      simp [authorStep]
    rw [hstep, if_neg hv]

theorem c2_amended_witness :
    _collect_thread_urls (fun _ => .ok (none, some "bob"))
      "https://x.com/i/status/7" [] [] 1 (some "alice") = .ok (["7"], []) :=
  (c2_amended (fun _ => .ok (none, some "bob")) "https://x.com/i/status/7"
    [] [] 1 "alice" "7" (by decide) rfl (by simp)).1 none "bob" rfl
    (by decide) (by decide)

/-- C3 counterexample: a metadata-fetch timeout for the parent (an
ancestor at depth 1) propagates out of `get_thread` as a `RuntimeError`
instead of ending the walk with the partial thread. -/
theorem c3_counterexample :
    get_thread infoC3cx "https://x.com/userA/status/100" =
      .error .runtimeError := rfl

/-- C3 (amended): there is no starting-vs-ancestor asymmetry.  A
metadata-fetch timeout raises `RuntimeError` at every depth, ancestors
included; a metadata fetch that completes but reports no parent stops the
walk gracefully at that post; and a timeout on the starting post surfaces
out of `get_thread`. -/
theorem c3_amended :
    (∀ (info : GetTweetInfo) url v u d f tid, d < _MAX_THREAD_DEPTH →
      _extract_tweet_id url = some tid → tid ∉ v → info url = .error () →
      _collect_thread_urls info url v u d f = .error .runtimeError) ∧
    (∀ (info : GetTweetInfo) url v u d f tid author, d < _MAX_THREAD_DEPTH →
      _extract_tweet_id url = some tid → tid ∉ v →
      info url = .ok (none, author) →
      _collect_thread_urls info url v u d f =
        .ok (tid :: v, (authorStep f author u url).2)) ∧
    (∀ (info : GetTweetInfo) url tid, _extract_tweet_id url = some tid →
      info url = .error () → get_thread info url = .error .runtimeError) := by
  have h1 : ∀ (info : GetTweetInfo) url v u d f tid, d < _MAX_THREAD_DEPTH →
      _extract_tweet_id url = some tid → tid ∉ v → info url = .error () →
      _collect_thread_urls info url v u d f = .error .runtimeError := by
    intro info url v u d f tid hd hx hv hi
    rw [collect_step info url v u d f hd]
    simp only [hx, hi]
    rw [if_neg hv]
  refine ⟨h1, ?_, ?_⟩
  · intro info url v u d f tid author hd hx hv hi
    rw [collect_step info url v u d f hd]
    simp only [hx, hi]
    rw [if_neg hv]
  · intro info url tid hx hi
    unfold get_thread
    rw [hx]
    rw [h1 info url [] [] 0 none tid (by decide) hx (by simp) hi]

theorem c3_amended_witness :
    _collect_thread_urls (fun _ => .error ()) "https://x.com/i/status/8"
      [] [] 7 none = .error .runtimeError :=
  c3_amended.1 (fun _ => .error ()) "https://x.com/i/status/8" [] [] 7 none
    "8" (by decide) rfl (by simp) rfl

/-- C7: the walk is a total function (it is defined for every metadata
capability, cyclic parent graphs included) and: a top-level walk returns
at most `_MAX_THREAD_DEPTH = 50` collected URLs and at most 50 processed
(visited) ids; so does `get_thread`; a post whose id is already in the
visited set is not processed again (the walk returns immediately); and the
visited set stays duplicate-free, so no id is ever processed twice. -/
theorem c7_termination_bounds :
    (∀ (info : GetTweetInfo) url v2 u2,
      _collect_thread_urls info url [] [] 0 none = .ok (v2, u2) →
      u2.length ≤ _MAX_THREAD_DEPTH ∧ v2.length ≤ _MAX_THREAD_DEPTH) ∧
    (∀ (info : GetTweetInfo) url t, get_thread info url = .ok t →
      t.tweet_urls.length ≤ _MAX_THREAD_DEPTH) ∧
    (∀ (info : GetTweetInfo) url v u d f tid,
      _extract_tweet_id url = some tid → tid ∈ v →
      _collect_thread_urls info url v u d f = .ok (v, u)) ∧
    (∀ (info : GetTweetInfo) url v u d f v2 u2,
      _collect_thread_urls info url v u d f = .ok (v2, u2) →
      v.Nodup → v2.Nodup) := by
  have htop : ∀ (info : GetTweetInfo) url v2 u2,
      _collect_thread_urls info url [] [] 0 none = .ok (v2, u2) →
      u2.length ≤ _MAX_THREAD_DEPTH ∧ v2.length ≤ _MAX_THREAD_DEPTH := by
    intro info url v2 u2 h
    unfold _collect_thread_urls at h
    obtain ⟨h1, h2, -, -⟩ := collectGo_bounds info (_MAX_THREAD_DEPTH - 0)
      url [] [] 0 none v2 u2 rfl h
    constructor
    · simpa using h1
    · simpa using h2
  refine ⟨htop, ?_, ?_, ?_⟩
  · intro info url t h
    unfold get_thread at h
    cases hx : _extract_tweet_id url with
    | none => rw [hx] at h; cases h
    | some c =>
      rw [hx] at h
      cases hc : _collect_thread_urls info url [] [] 0 none with
      | error e => rw [hc] at h; cases h
      | ok pr =>
        obtain ⟨v2, u2⟩ := pr
        rw [hc] at h
        simp only [Except.ok.injEq] at h
        subst h
        exact (htop info url v2 u2 hc).1
  · intro info url v u d f tid hx hv
    unfold _collect_thread_urls
    cases hfuel : _MAX_THREAD_DEPTH - d with
    | zero => rw [collectGo]
    | succ n =>
      rw [collectGo]
      by_cases hd : d ≥ _MAX_THREAD_DEPTH
      · rw [if_pos hd]
      · rw [if_neg hd]
        simp only [hx]
        rw [if_pos hv]
  · intro info url v u d f v2 u2 h hnd
    unfold _collect_thread_urls at h
    exact (collectGo_bounds info (_MAX_THREAD_DEPTH - d) url v u d f v2 u2
      rfl h).2.2.2 hnd

theorem c7_witness :
    _collect_thread_urls (fun _ => .ok (none, none))
      "https://x.com/i/status/5" ["5"] ["keep"] 0 none = .ok (["5"], ["keep"]) :=
  c7_termination_bounds.2.2.1 (fun _ => .ok (none, none))
    "https://x.com/i/status/5" ["5"] ["keep"] 0 none "5" rfl (by simp)

/-- C9: `get_thread` raises `ValueError` exactly when no post identifier
can be extracted from the starting URL; extraction succeeds exactly on
URLs containing `/status/` followed by a digit; and on success the
extracted digits are the conversation id.  The metadata capability is
assumed well formed (its parent ids are nonempty digit strings, which is
gallery-dl's `reply_id` contract) so that ancestor URLs built as
`https://x.com/i/status/{id}` always extract. -/
theorem c9_malformed_url (info : GetTweetInfo) (url : String)
    (hwf : WellFormedInfo info) :
    (_extract_tweet_id url = none ↔ ¬ HasStatusId url.data) ∧
    (_extract_tweet_id url = none →
      get_thread info url = .error .valueError) ∧
    (get_thread info url = .error .valueError →
      _extract_tweet_id url = none) ∧
    (∀ t, get_thread info url = .ok t →
      _extract_tweet_id url = some t.conversation_id) := by
  refine ⟨extract_eq_none_iff url, ?_, ?_, ?_⟩
  · intro hx
    unfold get_thread
    rw [hx]
  · intro h
    cases hx : _extract_tweet_id url with
    | none => rfl
    | some c =>
      exfalso
      unfold get_thread at h
      rw [hx] at h
      have hne : _collect_thread_urls info url [] [] 0 none ≠
          Except.error PyError.valueError :=
        collectGo_ne_valueError info hwf (_MAX_THREAD_DEPTH - 0)
          url [] [] 0 none (by simp [hx])
      cases hc : _collect_thread_urls info url [] [] 0 none with
      | error e =>
        rw [hc] at h
        simp only [Except.error.injEq] at h
        subst h
        exact hne hc
      | ok pr => rw [hc] at h; cases h
  · intro t h
    unfold get_thread at h
    cases hx : _extract_tweet_id url with
    | none => rw [hx] at h; cases h
    | some c =>
      rw [hx] at h
      cases hc : _collect_thread_urls info url [] [] 0 none with
      | error e => rw [hc] at h; cases h
      | ok pr =>
        obtain ⟨v2, u2⟩ := pr
        rw [hc] at h
        simp only [Except.ok.injEq] at h
        subst h
        rfl

theorem c9_witness :
    get_thread (fun _ => .ok (none, none)) "no-id-here" =
      .error .valueError :=
  (c9_malformed_url (fun _ => .ok (none, none)) "no-id-here"
    (fun u rid a h => by simp at h)).2.1 rfl


/-- C4 counterexample: in the `[urlOk1, urlBad, urlOk2]` scenario the call
indeed keeps going past the bad URL and returns the files saved for the
two good ones without raising — but the complete result is just
`(saved, skipped_count, existed_count)` (plus final ledger/directory/call
count): `download_all` produces no error list at all, so the claimed
"non-empty error list mentioning urlBad" does not exist; the bad URL is
mentioned nowhere in the result (its three failed attempts are only
logged). -/
theorem c4_counterexample :
    download_all gdlC4 "d" [] []
        ["https://s/status/11", "https://s/status/22", "https://s/status/33"] =
      some (⟨[⟨"https://s/status/11", "f1", "d"⟩,
              ⟨"https://s/status/33", "f2", "d"⟩], 0, 0⟩,
        ⟨["f1", "f2"], ["11", "33"],
          [⟨"https://s/status/11", "f1", "d"⟩,
           ⟨"https://s/status/33", "f2", "d"⟩], 0, 5⟩) ∧
    ∀ sf ∈ ([⟨"https://s/status/11", "f1", "d"⟩,
             ⟨"https://s/status/33", "f2", "d"⟩] : List SavedFile),
      sf.source_url ≠ "https://s/status/22" :=
  ⟨rfl, by decide⟩

/-- C4 (amended): `download_all` isolates per-URL fetch failures — as long
as the fetch capability never times out (timeouts raise), no exit code of
any URL can abort the batch: the call always returns a result, processing
every pending URL.  Failures are only logged; the result carries no error
list. -/
theorem c4_amended (gdl : Gdl) (today : String) (store dir : List String)
    (urls : List String) (hnt : ∀ u n, gdl u n ≠ none) :
    (download_all gdl today store dir urls).isSome := by
  unfold download_all
  have := processList_isSome gdl today hnt (pendingOf store urls)
    ⟨dir, store, [], 0, 0⟩
  cases hp : processList gdl today ⟨dir, store, [], 0, 0⟩
      (pendingOf store urls) with
  | none => rw [hp] at this; simp at this
  | some st => simp [hp]

theorem c4_amended_witness :
    (download_all (fun _ _ => some ((2 : Int), [])) "d" [] []
      ["https://s/status/11"]).isSome :=
  c4_amended (fun _ _ => some ((2 : Int), [])) "d" [] []
    ["https://s/status/11"] (fun u n => by simp)

/-- C5: the ledger-update rule of the fetch loop.  For a processed URL
with extractable id `tid`, given the retry loop's outcome (final directory
`dir2` and last exit code `rc`), the step succeeds and: `tid` ends up in
the ledger iff it was already there, or the directory diff is non-empty,
or the diff is empty but the exit code is the terminal 0/1; and
`existed_count` is incremented exactly in the empty-diff-terminal case.
In the remaining case (empty diff, genuine failure) the ledger is
untouched. -/
theorem c5_ledger_update (gdl : Gdl) (today : String) (st : BatchState)
    (url tid : String) (dir2 : List String) (rc : Int) (used : Nat)
    (ht : _tweet_id_from_url url = some tid)
    (hr : runAttempts gdl url st.dir = some (dir2, rc, used)) :
    ∃ st2, processOne gdl today st url = some st2 ∧
      (tid ∈ st2.store ↔
        tid ∈ st.store ∨ dir2.filter (fun f => decide (f ∉ st.dir)) ≠ [] ∨
          (dir2.filter (fun f => decide (f ∉ st.dir)) = [] ∧
            (rc = 0 ∨ rc = 1))) ∧
      st2.existed =
        (if dir2.filter (fun f => decide (f ∉ st.dir)) = [] ∧
            (rc = 0 ∨ rc = 1)
         then st.existed + 1 else st.existed) := by
  unfold processOne _download_one
  rw [hr]
  simp only [ht]
  by_cases hnf : dir2.filter (fun f => decide (f ∉ st.dir)) ≠ []
  · rw [if_pos hnf]
    refine ⟨_, rfl, ?_, ?_⟩
    · rw [mark_mem]
      exact iff_of_true (Or.inr (by simp)) (Or.inr (Or.inl hnf))
    · simp only [BatchState.mk.injEq]
      rw [if_neg (fun hcond => hnf hcond.1)]
  · rw [if_neg hnf]
    push_neg at hnf
    by_cases hrc : (rc == 0 || rc == 1) = true
    · rw [if_pos hrc]
      have hrc2 : rc = 0 ∨ rc = 1 := by
        rcases Bool.or_eq_true_iff.mp hrc with h | h
        · exact Or.inl (by exact_mod_cast beq_iff_eq.mp h)
        · exact Or.inr (by exact_mod_cast beq_iff_eq.mp h)
      refine ⟨_, rfl, ?_, ?_⟩
      · rw [mark_mem]
        exact iff_of_true (Or.inr (by simp)) (Or.inr (Or.inr ⟨hnf, hrc2⟩))
      · rw [if_pos ⟨hnf, hrc2⟩]
    · rw [if_neg hrc]
      have hrc2 : ¬ (rc = 0 ∨ rc = 1) := by
        intro hc
        apply hrc
        rcases hc with rfl | rfl
        · simp
        · simp
      refine ⟨_, rfl, ?_, ?_⟩
      · constructor
        · exact Or.inl
        · rintro (h | h | h)
          · exact h
          · exact absurd hnf h
          · exact absurd h.2 hrc2
      · rw [if_neg (fun hcond => hrc2 hcond.2)]

theorem c5_witness :
    ∃ st2, processOne (fun _ _ => some ((0 : Int), ["g1"])) "d"
        ⟨[], [], [], 0, 0⟩ "https://a/status/11" = some st2 ∧
      ("11" ∈ st2.store ↔
        "11" ∈ ([] : List String) ∨
          (["g1"].filter (fun f => decide (f ∉ ([] : List String))) ≠ []) ∨
          (["g1"].filter (fun f => decide (f ∉ ([] : List String))) = [] ∧
            ((0 : Int) = 0 ∨ (0 : Int) = 1))) ∧
      st2.existed =
        (if ["g1"].filter (fun f => decide (f ∉ ([] : List String))) = [] ∧
            ((0 : Int) = 0 ∨ (0 : Int) = 1)
         then 0 + 1 else 0) :=
  c5_ledger_update (fun _ _ => some ((0 : Int), ["g1"])) "d"
    ⟨[], [], [], 0, 0⟩ "https://a/status/11" "11" ["g1"] 0 1 rfl rfl

/-- C6: idempotence of `download_all` via ledger pruning.  If a first call
over a URL list ends with every URL's extractable id in the ledger (as
happens when each fetch yields a new file), then a second call with the
same list prunes every URL before any fetch: it returns no saved files,
counts all URLs as skipped, leaves ledger and directory unchanged, and
performs zero fetch-capability invocations. -/
theorem c6_idempotent (gdl : Gdl) (today : String) (store dir : List String)
    (urls : List String) (r1 : DownloadResult) (st1 : BatchState)
    (_h1 : download_all gdl today store dir urls = some (r1, st1))
    (h2 : ∀ u ∈ urls, ∃ t, _tweet_id_from_url u = some t ∧ t ∈ st1.store) :
    download_all gdl today st1.store st1.dir urls =
      some (⟨[], urls.length, 0⟩, ⟨st1.dir, st1.store, [], 0, 0⟩) := by
  have hpend : pendingOf st1.store urls = [] := by
    unfold pendingOf
    rw [List.filter_eq_nil_iff]
    intro u hu
    obtain ⟨t, ht, hmem⟩ := h2 u hu
    simp [ht, hmem]
  unfold download_all
  rw [hpend]
  simp [processList]

theorem c6_witness :
    download_all (fun _ _ => some ((0 : Int), ["g1"])) "d" ["11"] ["g1"]
        ["https://a/status/11"] =
      some (⟨[], 1, 0⟩, ⟨["g1"], ["11"], [], 0, 0⟩) :=
  c6_idempotent (fun _ _ => some ((0 : Int), ["g1"])) "d" [] []
    ["https://a/status/11"]
    ⟨[⟨"https://a/status/11", "g1", "d"⟩], 0, 0⟩
    ⟨["g1"], ["11"], [⟨"https://a/status/11", "g1", "d"⟩], 0, 1⟩
    rfl
    (by
      intro u hu
      simp only [List.mem_singleton] at hu
      subst hu
      exact ⟨"11", rfl, by simp⟩)

/-- C10: a URL with no extractable `/status/<digits>` id bypasses the
deduplication entirely — the pruning pass keeps every occurrence of it no
matter the ledger contents (so it is fetched on every call and never
counted as skipped), and after its fetch succeeds the ledger and
`existed_count` are untouched while the fetch capability was invoked for
it at least once. -/
theorem c10_no_id_bypasses_dedup (url : String)
    (ht : _tweet_id_from_url url = none) :
    (∀ store urls, (pendingOf store urls).count url = urls.count url) ∧
    (∀ (gdl : Gdl) (today : String) (st st2 : BatchState),
      processOne gdl today st url = some st2 →
      st2.store = st.store ∧ st2.existed = st.existed ∧
        st.calls < st2.calls) := by
  constructor
  · intro store urls
    unfold pendingOf
    rw [List.count_filter]
    simp [ht]
  · intro gdl today st st2 h
    unfold processOne _download_one at h
    cases hr : runAttempts gdl url st.dir with
    | none => rw [hr] at h; cases h
    | some pr =>
      obtain ⟨dir2, rc, used⟩ := pr
      rw [hr] at h
      simp only [ht] at h
      simp only [Option.some.injEq] at h
      subst h
      have hused : 1 ≤ used := runGo_used_pos gdl url _ st.dir 1 dir2 rc used hr
      refine ⟨rfl, rfl, ?_⟩
      simp only []
      omega

theorem c10_witness :
    (pendingOf ["11"] ["https://nope", "https://nope"]).count "https://nope" =
      (["https://nope", "https://nope"] : List String).count "https://nope" :=
  (c10_no_id_bypasses_dedup "https://nope" rfl).1 ["11"]
    ["https://nope", "https://nope"]

/-- C8 counterexample: `mark_downloaded` counts input-list entries (with
multiplicity) that are absent from the ledger, not distinct ids: marking
`["a", "a"]` into an empty ledger stores the single id "a" but returns 2,
while the claim's "number of distinct ids not already present" is 1. -/
theorem c8_counterexample :
    mark_downloaded [] ["a", "a"] = (["a"], 2) ∧
    (mark_downloaded [] ["a", "a"]).2 ≠ 1 := by
  constructor
  · rfl
  · decide

/-- C8 (amended): `mark_downloaded` returns the number of input-list
entries not already present (duplicates in the list counted with their
multiplicity; equal to the distinct count for duplicate-free inputs);
afterwards the stored set is exactly the union of the old set and the
ids; existing ids are never removed; and repeating the same call is a
no-op returning 0. -/
theorem c8_mark_monotone (store ids : List String) :
    (∀ t, t ∈ (mark_downloaded store ids).1 ↔ t ∈ store ∨ t ∈ ids) ∧
    (mark_downloaded store ids).2 =
      (ids.filter (fun t => decide (t ∉ store))).length ∧
    (∀ t ∈ store, t ∈ (mark_downloaded store ids).1) ∧
    mark_downloaded (mark_downloaded store ids).1 ids =
      ((mark_downloaded store ids).1, 0) := by
  refine ⟨fun t => mark_mem store ids t, mark_count store ids, ?_, ?_⟩
  · intro t htmem
    exact (mark_mem store ids t).mpr (Or.inl htmem)
  · exact mark_noop _ _ (fun t htmem =>
      (mark_mem store ids t).mpr (Or.inr htmem))

theorem c8_witness :
    "b" ∈ (mark_downloaded ["a"] ["b", "b"]).1 :=
  ((c8_mark_monotone ["a"] ["b", "b"]).1 "b").mpr (Or.inr (by simp))
